import Mathlib

/-!
Verification of the WikiReader article-transformation pipeline
(`src/app/pages/ReaderPage.tsx`).

The pipeline is shallowly embedded: JavaScript strings are lists of
characters, the DOM is a tree of element/text nodes with an attribute list,
and each pass of `fetchArticle` (clutter removal, URL normalization,
reading-time estimation, table-of-contents extraction, content location,
sanitization boundary, error fallback) is a Lean function translated from
the source.  React state commits (`setHtml` / `setSections` /
`setReadingTime`) are modelled as an explicit update list applied to a view
state, so that the orchestration (including the failure path of the
`try`/`catch`) and the effect of interleaved invocations can be stated.
-/

namespace WikiReader

/-- Characters of a JavaScript string. -/
abbrev Str := List Char

/-! ## JavaScript string primitives -/

/-- `String.prototype.trim()`: remove leading and trailing whitespace. -/
def jsTrim (l : Str) : Str :=
  ((l.dropWhile Char.isWhitespace).reverse.dropWhile Char.isWhitespace).reverse

/-- Worker for `jsSplitWs`.  `acc` is the piece being accumulated (reversed);
`inWs` records whether the previous character was part of a whitespace run
(so that a run produces a single separator). -/
def jsSplitWsGo : Str → Str → Bool → List Str
  | [], acc, _ => [acc.reverse]
  | c :: cs, acc, inWs =>
    if c.isWhitespace then
      if inWs then jsSplitWsGo cs [] true
      else acc.reverse :: jsSplitWsGo cs [] true
    else jsSplitWsGo cs (c :: acc) false

/-- `String.prototype.split(/\s+/)`: split on runs of whitespace.  As in
JavaScript, the empty string yields `[""]` and leading/trailing whitespace
contributes empty pieces. -/
def jsSplitWs (l : Str) : List Str := jsSplitWsGo l [] false

/-- `String.prototype.split(sep)` for a one-character separator: split at
every occurrence of `sep`, keeping empty pieces. -/
def splitOnChar (sep : Char) : Str → List Str
  | [] => [[]]
  | c :: cs =>
    if c = sep then [] :: splitOnChar sep cs
    else
      match splitOnChar sep cs with
      | [] => [[c]]
      | p :: ps => (c :: p) :: ps

/-- `String.prototype.toLowerCase()` (ASCII fragment, which covers the
heading texts the stop-list filter is applied to). -/
def jsToLower (l : Str) : Str := l.map Char.toLower

/-- `String.prototype.includes(needle)`: some suffix of `hay` starts with
`needle`. -/
def jsIncludes (hay needle : Str) : Bool :=
  hay.tails.any (fun t => needle.isPrefixOf t)

/-- Worker for `specWords`. -/
def specWordsGo : Str → Str → List Str
  | [], acc => if acc = [] then [] else [acc.reverse]
  | c :: cs, acc =>
    if c.isWhitespace then
      if acc = [] then specWordsGo cs [] else acc.reverse :: specWordsGo cs []
    else specWordsGo cs (c :: acc)

/-- The maximal non-whitespace runs of a string: the words in the sense of
the specification ("splitting trimmed text on runs of whitespace", with the
empty string containing zero words).  Also used for DOM class-attribute
tokenization. -/
def specWords (l : Str) : List Str := specWordsGo l []

/-! ## URL normalization (ReaderPage.tsx lines 79–118) -/

/-- The fixed origin used for root-relative references. -/
def wikiOrigin : Str := "https://en.wikipedia.org".data

/-- Rewriting applied to an image `src` (and to each `srcset` URL):
protocol-relative references get `https:` prepended, root-relative
references get the fixed origin prepended, anything else is unchanged. -/
def fixImgUrl (url : Str) : Str :=
  if ("//".data).isPrefixOf url then "https:".data ++ url
  else if ("/".data).isPrefixOf url then wikiOrigin ++ url
  else url

/-- Rewriting applied to an anchor `href` (lines 113–118): any reference
starting with `/` — including protocol-relative `//…` references — gets the
fixed origin prepended. -/
def fixHrefUrl (href : Str) : Str :=
  if ("/".data).isPrefixOf href then wikiOrigin ++ href else href

/-- Rewriting of one comma-separated `srcset` entry (lines 95–104):
`const [url, descriptor] = src.trim().split(' ')`, rewrite `url`, and keep
the descriptor only when it is truthy (a non-empty string). -/
def fixSrcsetEntry (entry : Str) : Str :=
  let parts := splitOnChar ' ' (jsTrim entry)
  let url := parts.headD []
  let descriptor := parts[1]?
  let fixedUrl := fixImgUrl url
  match descriptor with
  | some d => if d = [] then fixedUrl else fixedUrl ++ ' ' :: d
  | none => fixedUrl

/-- Rewriting of a whole `srcset` attribute (lines 93–105): split on commas,
rewrite each entry, join with `", "`. -/
def fixSrcset (srcset : Str) : Str :=
  List.intercalate ", ".data ((splitOnChar ',' srcset).map fixSrcsetEntry)

/-! ## DOM model -/

mutual
/-- A DOM node: a text node, or an element with a tag, an attribute list and
children. -/
inductive Node where
  | text : Str → Node
  | elem : Str → List (Str × Str) → NodeList → Node
deriving DecidableEq
/-- Children of an element. -/
inductive NodeList where
  | nil : NodeList
  | cons : Node → NodeList → NodeList
deriving DecidableEq
end

/-- Attribute lists. -/
abbrev Attrs := List (Str × Str)

/-- `getAttribute`. -/
def getAttr (attrs : Attrs) (name : Str) : Option Str :=
  (attrs.find? (fun p => p.1 == name)).map Prod.snd

/-- `setAttribute`: overwrite an existing attribute or append a new one. -/
def setAttr (attrs : Attrs) (name val : Str) : Attrs :=
  if attrs.any (fun p => p.1 == name) then
    attrs.map (fun p => if p.1 == name then (name, val) else p)
  else attrs ++ [(name, val)]

/-- The class tokens of an element (`class` attribute split on whitespace). -/
def classTokens (attrs : Attrs) : List Str :=
  match getAttr attrs "class".data with
  | some cls => specWords cls
  | none => []

/-- The selectors the page uses: all are `#id` or `.class` selectors. -/
inductive Sel where
  | byId : Str → Sel
  | byClass : Str → Sel
deriving DecidableEq

/-- Whether an element with attribute list `attrs` matches a selector. -/
def selMatchesAttrs : Sel → Attrs → Bool
  | .byId i, attrs => getAttr attrs "id".data == some i
  | .byClass c, attrs => (classTokens attrs).contains c

/-- Whether a node matches a selector (text nodes match nothing). -/
def nodeMatches (s : Sel) : Node → Bool
  | .text _ => false
  | .elem _ attrs _ => selMatchesAttrs s attrs

mutual
/-- `document.querySelector`: first match in document (pre-)order, the
searched node itself included. -/
def qsel (s : Sel) : Node → Option Node
  | .text _ => none
  | .elem t a cs =>
    if selMatchesAttrs s a then some (.elem t a cs) else qselL s cs
/-- `qsel` over a child list. -/
def qselL (s : Sel) : NodeList → Option Node
  | .nil => none
  | .cons c cs =>
    match qsel s c with
    | some r => some r
    | none => qselL s cs
end

/-- `Element.querySelector`: first match among the descendants (the element
itself is not a candidate). -/
def eqsel (s : Sel) : Node → Option Node
  | .text _ => none
  | .elem _ _ cs => qselL s cs

mutual
/-- `textContent`: concatenation of all text-node data. -/
def textContent : Node → Str
  | .text s => s
  | .elem _ _ cs => textContentL cs
/-- `textContent` over a child list. -/
def textContentL : NodeList → Str
  | .nil => []
  | .cons c cs => textContent c ++ textContentL cs
end

/-- Serialization of an attribute list, as in `outerHTML`. -/
def attrsHTML (attrs : Attrs) : Str :=
  attrs.foldr (fun p acc => ' ' :: (p.1 ++ '=' :: '"' :: p.2 ++ '"' :: acc)) []

mutual
/-- Serialization of a node (`outerHTML`). -/
def outerHTML : Node → Str
  | .text s => s
  | .elem t a cs =>
    '<' :: (t ++ attrsHTML a ++ ">".data ++ innerHTMLL cs ++ "</".data ++ t ++ ">".data)
/-- Serialization of a child list. -/
def innerHTMLL : NodeList → Str
  | .nil => []
  | .cons c cs => outerHTML c ++ innerHTMLL cs
end

/-- `innerHTML`: serialization of the children. -/
def innerHTML : Node → Str
  | .text _ => []
  | .elem _ _ cs => innerHTMLL cs

/-! ## Clutter removal (lines 52–76) -/

mutual
/-- Remove every descendant matching a selector (the effect of
`doc.querySelectorAll(selector).forEach(el => el.remove())`). -/
def removeSelNode (s : Sel) : Node → Node
  | .text str => .text str
  | .elem t a cs => .elem t a (removeSelL s cs)
/-- `removeSelNode` over a child list. -/
def removeSelL (s : Sel) : NodeList → NodeList
  | .nil => .nil
  | .cons c cs =>
    if nodeMatches s c then removeSelL s cs
    else .cons (removeSelNode s c) (removeSelL s cs)
end

/-- The fixed list of Wikipedia UI selectors deleted before extraction. -/
def elementsToRemove : List Sel :=
  [.byId "mw-navigation".data, .byId "mw-panel".data,
   .byClass "vector-menu".data, .byClass "mw-editsection".data,
   .byId "toc".data, .byClass "navbox".data, .byClass "metadata".data,
   .byClass "sistersitebox".data, .byClass "noprint".data,
   .byId "catlinks".data, .byId "footer".data,
   .byClass "mw-jump-link".data, .byClass "printfooter".data,
   .byClass "mw-empty-elt".data, .byId "siteSub".data,
   .byId "contentSub".data, .byClass "mw-indicators".data,
   .byClass "hatnote".data, .byId "coordinates".data]

/-- `elementsToRemove.forEach(selector => …remove())`. -/
def removeClutter (doc : Node) : Node :=
  elementsToRemove.foldl (fun d s => removeSelNode s d) doc

/-! ## Image and anchor passes (lines 79–118) -/

/-- The attribute rewriting of the image pass: fix `src`, fix `srcset`, set
`loading="lazy"`. -/
def fixImgAttrs (attrs : Attrs) : Attrs :=
  let a1 :=
    match getAttr attrs "src".data with
    | some srcAttr =>
      if ("//".data).isPrefixOf srcAttr then
        setAttr attrs "src".data ("https:".data ++ srcAttr)
      else if ("/".data).isPrefixOf srcAttr then
        setAttr attrs "src".data (wikiOrigin ++ srcAttr)
      else attrs
    | none => attrs
  let a2 :=
    match getAttr a1 "srcset".data with
    | some srcsetAttr => setAttr a1 "srcset".data (fixSrcset srcsetAttr)
    | none => a1
  setAttr a2 "loading".data "lazy".data

mutual
/-- `doc.querySelectorAll("img").forEach(…)`: apply `fixImgAttrs` to every
`img` element. -/
def fixImages : Node → Node
  | .text s => .text s
  | .elem t a cs =>
    .elem t (if t == "img".data then fixImgAttrs a else a) (fixImagesL cs)
/-- `fixImages` over a child list. -/
def fixImagesL : NodeList → NodeList
  | .nil => .nil
  | .cons c cs => .cons (fixImages c) (fixImagesL cs)
end

/-- The attribute rewriting of the anchor pass: `if (href &&
href.startsWith("/"))` prefix the fixed origin. -/
def fixAnchorAttrs (attrs : Attrs) : Attrs :=
  match getAttr attrs "href".data with
  | some href =>
    if !href.isEmpty && ("/".data).isPrefixOf href then
      setAttr attrs "href".data (wikiOrigin ++ href)
    else attrs
  | none => attrs

mutual
/-- `doc.querySelectorAll("a").forEach(…)`: apply `fixAnchorAttrs` to every
`a` element. -/
def fixAnchors : Node → Node
  | .text s => .text s
  | .elem t a cs =>
    .elem t (if t == "a".data then fixAnchorAttrs a else a) (fixAnchorsL cs)
/-- `fixAnchors` over a child list. -/
def fixAnchorsL : NodeList → NodeList
  | .nil => .nil
  | .cons c cs => .cons (fixAnchors c) (fixAnchorsL cs)
end

/-! ## Reading time (lines 120–125) -/

/-- Reading-time estimate: `Math.ceil(wordCount / 200)` minutes, where
`wordCount = textContent.trim().split(/\s+/).length`.  The ceiling of the
rational division by 200 is `(wordCount + 199) / 200` in natural division. -/
def readingMinutes (text : Str) : Nat :=
  let wordCount := (jsSplitWs (jsTrim text)).length
  (wordCount + 199) / 200

/-! ## Table-of-contents extraction (lines 127–143) -/

/-- The two heading levels collected by `querySelectorAll("h2, h3")`. -/
def isHeadingTag (t : Str) : Bool := t == "h2".data || t == "h3".data

mutual
/-- All `h2`/`h3` elements of a subtree in document (pre-)order, the root
included when it is itself a heading. -/
def headingsIn : Node → List Node
  | .text _ => []
  | .elem t a cs =>
    (if isHeadingTag t then [Node.elem t a cs] else []) ++ headingsInL cs
/-- `headingsIn` over a child list. -/
def headingsInL : NodeList → List Node
  | .nil => []
  | .cons c cs => headingsIn c ++ headingsInL cs
end

/-- The headings scanned for the table of contents:
`(doc.querySelector('#mw-content-text') || doc.body).querySelectorAll("h2, h3")`
in document order (descendants of the content div only). -/
def headingsOf (doc : Node) : List Node :=
  match (qsel (.byId "mw-content-text".data) doc).getD doc with
  | .text _ => []
  | .elem _ _ cs => headingsInL cs

/-- The stop-list filter (lines 132–138): keep a heading unless its
lowercased text contains `"navigation"`, `"contents"` or `"languages"`. -/
def keepHeading (h : Node) : Bool :=
  let text := jsToLower (textContent h)
  !(jsIncludes text "navigation".data) &&
    !(jsIncludes text "contents".data) &&
    !(jsIncludes text "languages".data)

/-- A table-of-contents entry: the generated id, the heading text (the
source reads `h.innerText`, modelled as the text content), and the mutated
heading element. -/
structure Section where
  id : Str
  title : Str
  element : Node
deriving DecidableEq

/-- `h.id = id`: set the `id` attribute of an element. -/
def withIdAttr : Node → Str → Node
  | .text s, _ => .text s
  | .elem t a cs, i => .elem t (setAttr a "id".data i) cs

/-- The `filter`/`map` of lines 131–143.  `nanoid()` draws fresh ids from an
external generator, modelled as a supply `ids` indexed by how many ids were
drawn before; the k-th surviving heading receives `ids k`. -/
def sectionsOf (ids : Nat → Str) (doc : Node) : List Section :=
  ((headingsOf doc).filter keepHeading).enum.map
    (fun p => { id := ids p.1, title := textContent p.2,
                element := withIdAttr p.2 (ids p.1) })

mutual
/-- In-place effect of the id assignment on the document: walk a subtree in
document order and give each surviving heading the next id of the supply. -/
def assignIds (ids : Nat → Str) (k : Nat) : Node → Node × Nat
  | .text s => (.text s, k)
  | .elem t a cs =>
    if isHeadingTag t && keepHeading (.elem t a cs) then
      let r := assignIdsL ids (k + 1) cs
      (.elem t (setAttr a "id".data (ids k)) r.1, r.2)
    else
      let r := assignIdsL ids k cs
      (.elem t a r.1, r.2)
/-- `assignIds` over a child list, threading the id counter. -/
def assignIdsL (ids : Nat → Str) (k : Nat) : NodeList → NodeList × Nat
  | .nil => (.nil, k)
  | .cons c cs =>
    let r := assignIds ids k c
    let r2 := assignIdsL ids r.2 cs
    (.cons r.1 r2.1, r2.2)
end

/-- Assign ids below a content root (its descendants are the
`querySelectorAll` scope). -/
def assignInDoc (ids : Nat → Str) (contentRoot : Node) : Node :=
  match contentRoot with
  | .text s => .text s
  | .elem t a cs => .elem t a (assignIdsL ids 0 cs).1

mutual
/-- Replace the first node (in document order) matching a selector by the
image of `f`, reporting whether a replacement happened. -/
def replaceFirstNode (s : Sel) (f : Node → Node) : Node → Node × Bool
  | .text str => (.text str, false)
  | .elem t a cs =>
    if selMatchesAttrs s a then (f (.elem t a cs), true)
    else
      let r := replaceFirstL s f cs
      (.elem t a r.1, r.2)
/-- `replaceFirstNode` over a child list. -/
def replaceFirstL (s : Sel) (f : Node → Node) : NodeList → NodeList × Bool
  | .nil => (.nil, false)
  | .cons c cs =>
    let r := replaceFirstNode s f c
    if r.2 then (.cons r.1 cs, true)
    else
      let r2 := replaceFirstL s f cs
      (.cons c r2.1, r2.2)
end

/-- The document after the heading-id mutation of lines 139–143: ids are
assigned inside `#mw-content-text` when it exists, otherwise inside the
body. -/
def mutateDoc (ids : Nat → Str) (doc : Node) : Node :=
  match qsel (.byId "mw-content-text".data) doc with
  | some _ =>
    (replaceFirstNode (.byId "mw-content-text".data) (assignInDoc ids) doc).1
  | none => assignInDoc ids doc

/-! ## Content locator (lines 145–193) -/

/-- The nested-fallback selection of `mainContent`, translated match by
match from the `if (!mainContent)` chain. -/
def locateMainContent (doc : Node) : Option Node :=
  let contentText := qsel (.byId "mw-content-text".data) doc
  let m0 : Option Node :=
    match contentText with
    | some ct => eqsel (.byClass "mw-parser-output".data) ct
    | none => none
  let m1 : Option Node :=
    match m0 with
    | some m => some m
    | none =>
      match qsel (.byId "bodyContent".data) doc with
      | some bc => eqsel (.byClass "mw-parser-output".data) bc
      | none => none
  let m2 : Option Node :=
    match m1 with
    | some m => some m
    | none => contentText
  let m3 : Option Node :=
    match m2 with
    | some m => some m
    | none => qsel (.byId "content".data) doc
  let m4 : Option Node :=
    match m3 with
    | some m => some m
    | none => qsel (.byClass "mw-body-content".data) doc
  match m4 with
  | some m => some m
  | none => some doc

/-- The message of the `throw` at line 184. -/
def noContentMsg : Str := "No content found on page - all selectors failed".data

/-- The message of the `throw` at line 192. -/
def sanitizedEmptyMsg : Str := "Sanitized HTML is empty".data

/-- Lines 145–185: select `mainContent`, then `throw` when it is missing or
its serialized content is empty after trimming. -/
def getMainContent (doc : Node) : Except Str Node :=
  match locateMainContent doc with
  | none => .error noContentMsg
  | some m =>
    if (jsTrim (innerHTML m)).isEmpty then .error noContentMsg else .ok m

/-! ## Orchestration (lines 41–219) -/

/-- The component state the pipeline commits into. -/
structure ViewState where
  html : Str
  sections : List Section
  readingTime : Nat
deriving DecidableEq

/-- One React state commit. -/
inductive Update where
  | setHtml : Str → Update
  | setSections : List Section → Update
  | setReadingTime : Nat → Update
deriving DecidableEq

/-- Apply one commit. -/
def applyUpdate (st : ViewState) : Update → ViewState
  | .setHtml h => { st with html := h }
  | .setSections s => { st with sections := s }
  | .setReadingTime m => { st with readingTime := m }

/-- Apply a sequence of commits in order. -/
def applyUpdates (st : ViewState) (us : List Update) : ViewState :=
  us.foldl applyUpdate st

/-- The fixed fallback markup before the interpolated error text. -/
def fbPart1 : Str :=
  ("\n          <div style=\"padding: 3rem 2rem; text-align: center; color: var(--color-text-secondary);\">\n            <h2 style=\"color: var(--color-text-primary); margin-bottom: 1rem;\">Failed to Load Article</h2>\n            <p style=\"margin-bottom: 1.5rem;\">Could not fetch or parse the Wikipedia page.</p>\n            <p style=\"margin-bottom: 0.5rem;\"><strong>Error:</strong> ").data

/-- The fixed fallback markup between the error text and the source URL. -/
def fbPart2 : Str :=
  ("</p>\n            <p style=\"margin-top: 2rem;\">\n              <a href=\"").data

/-- The fixed fallback markup after the source URL. -/
def fbPart3 : Str :=
  ("\" target=\"_blank\" style=\"color: var(--color-link); text-decoration: underline;\">\n                Open original Wikipedia page →\n              </a>\n            </p>\n          </div>\n        ").data

/-- The fallback markup of lines 201–212: the raw error message and the raw
source URL interpolated into the fixed template. -/
def fallbackHtml (src errMsg : Str) : Str :=
  fbPart1 ++ errMsg ++ fbPart2 ++ src ++ fbPart3

/-- The three commits of the `catch` block (lines 201–214). -/
def catchUpdates (src errMsg : Str) : List Update :=
  [.setHtml (fallbackHtml src errMsg), .setSections [], .setReadingTime 0]

/-- The document after the three in-place passes that precede all reads:
clutter removal, image fixing, anchor fixing. -/
def processedDoc (doc : Node) : Node := fixAnchors (fixImages (removeClutter doc))

/-- The commits performed by one `fetchArticle` invocation.  `ids` is the
`nanoid` supply, `sanitize` the DOMPurify boundary, `src` the input URL and
`res` the fetch/parse outcome (`.error e` models a rejected fetch whose
error message is `e`; `DOMParser.parseFromString` itself never throws). -/
def fetchArticle (ids : Nat → Str) (sanitize : Str → Str) (src : Str)
    (res : Except Str Node) : List Update :=
  match res with
  | .error e => catchUpdates src e
  | .ok doc0 =>
    let doc := processedDoc doc0
    let minutes := readingMinutes (textContent doc)
    let parsedSections := sectionsOf ids doc
    let doc2 := mutateDoc ids doc
    match getMainContent doc2 with
    | .error e => Update.setReadingTime minutes :: catchUpdates src e
    | .ok mainContent =>
      let sanitizedHTML := sanitize (innerHTML mainContent)
      if (jsTrim sanitizedHTML).isEmpty then
        Update.setReadingTime minutes :: catchUpdates src sanitizedEmptyMsg
      else
        [.setReadingTime minutes, .setHtml sanitizedHTML,
         .setSections parsedSections]

/-- The view state after one invocation commits, starting from `st`. -/
def finalState (ids : Nat → Str) (sanitize : Str → Str) (src : Str)
    (res : Except Str Node) (st : ViewState) : ViewState :=
  applyUpdates st (fetchArticle ids sanitize src res)

/-- Resolution of a sequence of in-flight invocations, in the order their
fetches settle: each one commits its updates unconditionally (the effect has
no staleness guard). -/
def runResolutions (ids : Nat → Str) (sanitize : Str → Str) (st0 : ViewState)
    (invs : List (Str × Except Str Node)) : ViewState :=
  invs.foldl (fun st inv => applyUpdates st (fetchArticle ids sanitize inv.1 inv.2)) st0

/-! ## Helper lemmas on strings -/

/-- The first character surviving `dropWhile` fails the predicate. -/
theorem dropWhile_head_false {p : Char → Bool} {l : Str} {c : Char} {cs : Str}
    (h : l.dropWhile p = c :: cs) : p c = false := by
  have h2 := List.head?_dropWhile_not p l
  rw [h] at h2
  simpa using h2

/-- A nonempty suffix has the same last element as the whole list. -/
theorem getLast?_of_suffix {l₁ l₂ : Str} (h : l₂ <:+ l₁) (hne : l₂ ≠ []) :
    l₂.getLast? = l₁.getLast? := by
  obtain ⟨pre, rfl⟩ := h
  exact (List.getLast?_append_of_ne_nil pre hne).symm

/-- No trailing whitespace. -/
def noTrailWs (l : Str) : Prop :=
  ∀ c, l.getLast? = some c → c.isWhitespace = false

theorem noTrailWs_nil : noTrailWs [] := by
  intro c hc
  simp at hc

theorem noTrailWs_tail {c : Char} {cs : Str} (h : noTrailWs (c :: cs)) (hne : cs ≠ []) :
    noTrailWs cs := by
  intro d hd
  apply h
  cases cs with
  | nil => exact absurd rfl hne
  | cons b bs => rw [List.getLast?_cons_cons]; exact hd

theorem noTrailWs_head {c : Char} (h : noTrailWs [c]) : c.isWhitespace = false := by
  apply h
  simp

/-- The head of a trimmed string is not whitespace. -/
theorem jsTrim_head_not_ws {l : Str} {c : Char} {cs : Str}
    (h : jsTrim l = c :: cs) : c.isWhitespace = false := by
  unfold jsTrim at h
  set a := l.dropWhile Char.isWhitespace with ha
  set b := a.reverse.dropWhile Char.isWhitespace with hb
  have hbne : b ≠ [] := by
    intro h0
    rw [h0] at h
    simp at h
  have h1 : b.getLast? = some c := by
    have h0 : b.reverse.head? = some c := by rw [h]; rfl
    rwa [List.head?_reverse] at h0
  have h2 : b.getLast? = a.reverse.getLast? :=
    getLast?_of_suffix (List.dropWhile_suffix Char.isWhitespace) hbne
  have h3 : a.reverse.getLast? = a.head? := List.getLast?_reverse a
  have h4 : a.head? = some c := by rw [← h3, ← h2, h1]
  cases haa : a with
  | nil => rw [haa] at h4; simp at h4
  | cons d ds =>
    rw [haa] at h4
    simp at h4
    subst h4
    exact dropWhile_head_false (ha.symm.trans haa)

/-- The last character of a trimmed string is not whitespace. -/
theorem jsTrim_last_not_ws {l : Str} {c : Char}
    (h : (jsTrim l).getLast? = some c) : c.isWhitespace = false := by
  unfold jsTrim at h
  set a := l.dropWhile Char.isWhitespace with ha
  set b := a.reverse.dropWhile Char.isWhitespace with hb
  rw [List.getLast?_reverse] at h
  cases hbb : b with
  | nil => rw [hbb] at h; simp at h
  | cons d ds =>
    rw [hbb] at h
    simp at h
    subst h
    exact dropWhile_head_false (hb.symm.trans hbb)

/-! ## Word counting: the JavaScript split versus the specification words -/

theorem specWordsGo_length_pos : ∀ (l acc : Str), acc ≠ [] →
    0 < (specWordsGo l acc).length := by
  intro l
  induction l with
  | nil => intro acc h; simp [specWordsGo, h]
  | cons c cs ih =>
    intro acc h
    by_cases hw : c.isWhitespace
    · simp [specWordsGo, hw, h]
    · simpa [specWordsGo, hw] using ih (c :: acc) (by simp)

/-- On a string with no trailing whitespace, the JavaScript split
`split(/\s+/)` and the specification words have the same count, both for a
pending nonempty piece (`false` state) and directly after a separator run
(`true` state on a nonempty remainder). -/
theorem splitWs_specWords_len : ∀ (n : Nat) (l : Str), l.length ≤ n →
    ((∀ acc : Str, acc ≠ [] → noTrailWs l →
        (jsSplitWsGo l acc false).length = (specWordsGo l acc).length)
  ∧ (l ≠ [] → noTrailWs l →
        (jsSplitWsGo l [] true).length = (specWordsGo l []).length)) := by
  intro n
  induction n with
  | zero =>
    intro l hl
    have h0 : l = [] := List.length_eq_zero.mp (Nat.le_zero.mp hl)
    subst h0
    constructor
    · intro acc hacc _
      simp [jsSplitWsGo, specWordsGo, hacc]
    · intro hne _
      exact absurd rfl hne
  | succ n ih =>
    intro l hl
    constructor
    · intro acc hacc htr
      cases l with
      | nil => simp [jsSplitWsGo, specWordsGo, hacc]
      | cons c cs =>
        have hcsl : cs.length ≤ n := by
          simpa using Nat.lt_succ_iff.mp (Nat.lt_of_lt_of_le (by simp) hl)
        by_cases hw : c.isWhitespace
        · have hcs : cs ≠ [] := by
            intro h0
            subst h0
            rw [noTrailWs_head htr] at hw
            exact Bool.noConfusion hw
          have hQ := (ih cs hcsl).2 hcs (noTrailWs_tail htr hcs)
          simpa [jsSplitWsGo, specWordsGo, hw, hacc] using hQ
        · have htr2 : noTrailWs cs := by
            cases hcs : cs with
            | nil => exact noTrailWs_nil
            | cons b bs => exact hcs ▸ noTrailWs_tail htr (by simp [hcs])
          have hR := (ih cs hcsl).1 (c :: acc) (by simp) htr2
          simpa [jsSplitWsGo, specWordsGo, hw] using hR
    · intro hne htr
      cases l with
      | nil => exact absurd rfl hne
      | cons c cs =>
        have hcsl : cs.length ≤ n := by
          simpa using Nat.lt_succ_iff.mp (Nat.lt_of_lt_of_le (by simp) hl)
        by_cases hw : c.isWhitespace
        · have hcs : cs ≠ [] := by
            intro h0
            subst h0
            rw [noTrailWs_head htr] at hw
            exact Bool.noConfusion hw
          have hQ := (ih cs hcsl).2 hcs (noTrailWs_tail htr hcs)
          simpa [jsSplitWsGo, specWordsGo, hw] using hQ
        · have htr2 : noTrailWs cs := by
            cases hcs : cs with
            | nil => exact noTrailWs_nil
            | cons b bs => exact hcs ▸ noTrailWs_tail htr (by simp [hcs])
          have hR := (ih cs hcsl).1 [c] (by simp) htr2
          simpa [jsSplitWsGo, specWordsGo, hw] using hR

/-- The reading-time estimate in terms of the specification word count: the
piece count of the JavaScript split of the trimmed text is its number of
maximal non-whitespace runs, except that the empty trimmed text still has
one (empty) piece. -/
theorem readingMinutes_eq_specWords (text : Str) :
    readingMinutes text = (max (specWords (jsTrim text)).length 1 + 199) / 200 := by
  unfold readingMinutes jsSplitWs specWords
  cases ht : jsTrim text with
  | nil => simp [jsSplitWsGo, specWordsGo]
  | cons c cs =>
    have hw : c.isWhitespace = false := jsTrim_head_not_ws ht
    have htr : noTrailWs (c :: cs) := by
      intro d hd
      exact jsTrim_last_not_ws (ht ▸ hd)
    have htr2 : noTrailWs cs := by
      cases hcs : cs with
      | nil => exact noTrailWs_nil
      | cons b bs => exact hcs ▸ noTrailWs_tail htr (by simp [hcs])
    have hlen := (splitWs_specWords_len cs.length cs le_rfl).1 [c] (by simp) htr2
    have hstep1 : jsSplitWsGo (c :: cs) [] false = jsSplitWsGo cs [c] false := by
      simp [jsSplitWsGo, hw]
    have hstep2 : specWordsGo (c :: cs) [] = specWordsGo cs [c] := by
      simp [specWordsGo, hw]
    have hpos : 1 ≤ (specWordsGo cs [c]).length := specWordsGo_length_pos cs [c] (by simp)
    rw [hstep1, hstep2, hlen, Nat.max_eq_left hpos]

set_option maxRecDepth 40000

/-- A text of exactly 400 words. -/
def text400 : Str := (List.replicate 400 "word ".data).flatten

/-- Claim C3 (corrected): the reading-time estimate is the ceiling of the
piece count of the whitespace split of the trimmed text divided by 200,
where the split of an empty trimmed text yields one empty piece — so a
400-word text yields 2, a 1-word text yields 1, and the empty text
yields 1 (not 0 as the claim states). -/
theorem readingTime_formula_amended :
    (∀ text : Str,
        readingMinutes text = (max (specWords (jsTrim text)).length 1 + 199) / 200)
  ∧ readingMinutes text400 = 2
  ∧ readingMinutes "word".data = 1
  ∧ readingMinutes [] = 1 :=
  ⟨readingMinutes_eq_specWords, by decide, by decide, by decide⟩

/-- Claim C3, counterexample: on the empty text the code computes a
word count of 1 (JavaScript `"".trim().split(/\s+/)` is `[""]`), so the
reading time is 1, not the 0 the claim requires. -/
theorem readingTime_empty_text_ne_zero :
    readingMinutes [] = 1 ∧ readingMinutes [] ≠ 0 := by
  constructor
  · decide
  · decide

/-! ## Splitting lemmas for the srcset pass -/

theorem mem_of_getLast? {l : Str} {c : Char} (h : l.getLast? = some c) : c ∈ l := by
  have h2 : l.reverse.head? = some c := by rw [List.head?_reverse]; exact h
  have h3 : c ∈ l.reverse := by
    cases hr : l.reverse with
    | nil => rw [hr] at h2; simp at h2
    | cons d ds =>
      rw [hr] at h2
      simp only [List.head?_cons, Option.some.injEq] at h2
      subst h2
      exact List.mem_cons_self d ds
  exact List.mem_reverse.mp h3

theorem splitOnChar_no_sep {sep : Char} : ∀ l : Str, sep ∉ l → splitOnChar sep l = [l] := by
  intro l
  induction l with
  | nil => intro _; rfl
  | cons c cs ih =>
    intro h
    have hc : ¬(c = sep) := by
      intro h0
      exact h (h0 ▸ List.mem_cons_self c cs)
    have hcs : sep ∉ cs := fun h0 => h (List.mem_cons_of_mem c h0)
    unfold splitOnChar
    rw [if_neg hc, ih hcs]

theorem splitOnChar_append_sep {sep : Char} : ∀ (xs ys : Str), sep ∉ xs →
    splitOnChar sep (xs ++ sep :: ys) = xs :: splitOnChar sep ys := by
  intro xs
  induction xs with
  | nil =>
    intro ys _
    show splitOnChar sep (sep :: ys) = [] :: splitOnChar sep ys
    simp [splitOnChar]
  | cons c cs ih =>
    intro ys h
    have hc : ¬(c = sep) := by
      intro h0
      exact h (h0 ▸ List.mem_cons_self c cs)
    have hcs : sep ∉ cs := fun h0 => h (List.mem_cons_of_mem c h0)
    show splitOnChar sep (c :: (cs ++ sep :: ys)) = (c :: cs) :: splitOnChar sep ys
    simp only [splitOnChar]
    rw [if_neg hc, ih ys hcs]

theorem splitOnChar_cons_ne {sep c : Char} (l : Str) (h : ¬(c = sep)) (p : Str)
    (ps : List Str) (hl : splitOnChar sep l = p :: ps) :
    splitOnChar sep (c :: l) = (c :: p) :: ps := by
  unfold splitOnChar
  rw [if_neg h, hl]

/-- `jsTrim` fixes a string whose ends are not whitespace. -/
theorem jsTrim_eq_self {l : Str}
    (h1 : ∀ c, l.head? = some c → c.isWhitespace = false)
    (h2 : ∀ c, l.getLast? = some c → c.isWhitespace = false) : jsTrim l = l := by
  cases l with
  | nil => rfl
  | cons c cs =>
    unfold jsTrim
    have hdw : (c :: cs).dropWhile Char.isWhitespace = c :: cs := by
      rw [List.dropWhile_cons]
      simp [h1 c rfl]
    rw [hdw]
    have hrev : ((c :: cs).reverse).dropWhile Char.isWhitespace = (c :: cs).reverse := by
      cases hr : (c :: cs).reverse with
      | nil => simp at hr
      | cons d ds =>
        rw [List.dropWhile_cons]
        have hd : d.isWhitespace = false := by
          apply h2
          rw [← List.head?_reverse, hr]
          rfl
        simp [hd]
    rw [hrev, List.reverse_reverse]

theorem jsTrim_cons_ws {c : Char} (l : Str) (h : c.isWhitespace = true) :
    jsTrim (c :: l) = jsTrim l := by
  unfold jsTrim
  rw [List.dropWhile_cons]
  simp [h]

/-- An entry of the claim: a URL and an optional size descriptor.  The
rendered entry is `url` or `url ++ " " ++ descriptor`. -/
def renderEntry (p : Str × Option Str) : Str :=
  match p.2 with
  | none => p.1
  | some d => p.1 ++ ' ' :: d

/-- Well-formedness of an entry: the URL is nonempty and free of whitespace
and commas, and so is the descriptor when present. -/
def entryOk (p : Str × Option Str) : Bool :=
  !p.1.isEmpty && p.1.all (fun c => !c.isWhitespace && c != ',') &&
    (match p.2 with
     | none => true
     | some d => !d.isEmpty && d.all (fun c => !c.isWhitespace && c != ','))

theorem entryOk_url {p : Str × Option Str} (h : entryOk p = true) :
    p.1 ≠ [] ∧ ∀ c ∈ p.1, c.isWhitespace = false ∧ ¬(c = ',') := by
  unfold entryOk at h
  simp only [Bool.and_eq_true, List.all_eq_true] at h
  refine ⟨by simpa using h.1.1, fun c hc => ?_⟩
  have := h.1.2 c hc
  simp only [Bool.and_eq_true] at this
  exact ⟨by simpa using this.1, by simpa using this.2⟩

theorem entryOk_desc {p : Str × Option Str} {d : Str} (h : entryOk p = true)
    (hd : p.2 = some d) :
    d ≠ [] ∧ ∀ c ∈ d, c.isWhitespace = false ∧ ¬(c = ',') := by
  unfold entryOk at h
  rw [hd] at h
  simp only [Bool.and_eq_true, List.all_eq_true] at h
  refine ⟨by simpa using h.2.1, fun c hc => ?_⟩
  have := h.2.2 c hc
  simp only [Bool.and_eq_true] at this
  exact ⟨by simpa using this.1, by simpa using this.2⟩

theorem comma_not_mem_renderEntry {p : Str × Option Str} (h : entryOk p = true) :
    ',' ∉ renderEntry p := by
  intro hmem
  unfold renderEntry at hmem
  cases hp : p.2 with
  | none =>
    rw [hp] at hmem
    exact ((entryOk_url h).2 ',' hmem).2 rfl
  | some d =>
    rw [hp] at hmem
    rcases List.mem_append.mp hmem with h1 | h2
    · exact ((entryOk_url h).2 ',' h1).2 rfl
    · rcases List.mem_cons.mp h2 with h3 | h4
      · exact absurd h3 (by decide)
      · exact ((entryOk_desc h hp).2 ',' h4).2 rfl

/-- Trimming does not change a well-formed rendered entry. -/
theorem jsTrim_renderEntry {p : Str × Option Str} (h : entryOk p = true) :
    jsTrim (renderEntry p) = renderEntry p := by
  obtain ⟨hne, hurl⟩ := entryOk_url h
  apply jsTrim_eq_self
  · intro c hc
    unfold renderEntry at hc
    cases hp : p.2 with
    | none =>
      rw [hp] at hc
      exact (hurl c (List.mem_of_mem_head? hc)).1
    | some d =>
      rw [hp] at hc
      cases hu : p.1 with
      | nil => exact absurd hu hne
      | cons u us =>
        rw [hu] at hc
        simp at hc
        subst hc
        exact (hurl u (by rw [hu]; simp)).1
  · intro c hc
    unfold renderEntry at hc
    cases hp : p.2 with
    | none =>
      rw [hp] at hc
      exact (hurl c (mem_of_getLast? hc)).1
    | some d =>
      rw [hp] at hc
      obtain ⟨hdne, hdesc⟩ := entryOk_desc h hp
      rw [List.getLast?_append_of_ne_nil p.1 (by simp)] at hc
      have hc2 : d.getLast? = some c := by
        cases hd : d with
        | nil => exact absurd hd hdne
        | cons e es =>
          rw [hd] at hc
          rw [List.getLast?_cons_cons] at hc
          exact hc
      exact (hdesc c (mem_of_getLast? hc2)).1

/-- A space prefixed to an entry is removed by the trim inside the entry
rewriter. -/
theorem fixSrcsetEntry_space (e : Str) :
    fixSrcsetEntry (' ' :: e) = fixSrcsetEntry e := by
  unfold fixSrcsetEntry
  rw [jsTrim_cons_ws e (by decide)]

/-- The entry rewriter on a well-formed rendered entry: the URL is rewritten
and the optional descriptor is preserved. -/
theorem fixSrcsetEntry_render {p : Str × Option Str} (h : entryOk p = true) :
    fixSrcsetEntry (renderEntry p) = renderEntry (fixImgUrl p.1, p.2) := by
  obtain ⟨hne, hurl⟩ := entryOk_url h
  have hsp_url : ' ' ∉ p.1 := by
    intro hmem
    have := (hurl ' ' hmem).1
    simp at this
  unfold fixSrcsetEntry
  rw [jsTrim_renderEntry h]
  cases hp : p.2 with
  | none =>
    have hre : renderEntry p = p.1 := by unfold renderEntry; rw [hp]
    rw [hre, splitOnChar_no_sep p.1 hsp_url]
    simp [renderEntry]
  | some d =>
    obtain ⟨hdne, hdesc⟩ := entryOk_desc h hp
    have hsp_d : ' ' ∉ d := by
      intro hmem
      have := (hdesc ' ' hmem).1
      simp at this
    have hre : renderEntry p = p.1 ++ ' ' :: d := by unfold renderEntry; rw [hp]
    rw [hre, splitOnChar_append_sep p.1 d hsp_url, splitOnChar_no_sep d hsp_d]
    simp [renderEntry, hdne]

/-- Splitting the comma-joined rendering on commas gives the first entry
followed by the remaining entries, each with the separator space attached. -/
theorem splitOnChar_intercalate : ∀ (es : List Str) (e : Str),
    (∀ x ∈ e :: es, ',' ∉ x) →
    splitOnChar ',' (List.intercalate ", ".data (e :: es))
      = e :: es.map (fun r => ' ' :: r) := by
  intro es
  induction es with
  | nil =>
    intro e h
    have h1 : List.intercalate ", ".data [e] = e := by
      simp [List.intercalate]
    rw [h1, splitOnChar_no_sep e (h e (by simp))]
    rfl
  | cons e2 rest ih =>
    intro e h
    have hstep : List.intercalate ", ".data (e :: e2 :: rest)
        = e ++ ',' :: ' ' :: List.intercalate ", ".data (e2 :: rest) := by
      simp [List.intercalate, List.intersperse]
    rw [hstep, splitOnChar_append_sep e _ (h e (by simp))]
    have hih := ih e2 (fun x hx => h x (by
      rcases List.mem_cons.mp hx with h1 | h2
      · simp [h1]
      · simp [h2]))
    rw [splitOnChar_cons_ne _ (by decide) e2 (rest.map (fun r => ' ' :: r)) hih]
    rfl

/-- The whole srcset rewriting on a comma-joined list of well-formed
entries. -/
theorem fixSrcset_entries (es : List (Str × Option Str)) (hne : es ≠ [])
    (h : ∀ p ∈ es, entryOk p = true) :
    fixSrcset (List.intercalate ", ".data (es.map renderEntry))
      = List.intercalate ", ".data
          (es.map (fun p => renderEntry (fixImgUrl p.1, p.2))) := by
  cases es with
  | nil => exact absurd rfl hne
  | cons p ps =>
    unfold fixSrcset
    rw [List.map_cons]
    rw [splitOnChar_intercalate (ps.map renderEntry) (renderEntry p) (by
      intro x hx
      rcases List.mem_cons.mp hx with h1 | h2
      · subst h1
        exact comma_not_mem_renderEntry (h p (by simp))
      · obtain ⟨q, hq, rfl⟩ := List.mem_map.mp h2
        exact comma_not_mem_renderEntry (h q (by simp [hq])))]
    rw [List.map_cons, fixSrcsetEntry_render (h p (by simp)), List.map_map]
    have hmaps : (ps.map renderEntry).map (fixSrcsetEntry ∘ fun r => ' ' :: r)
        = ps.map (fun q => renderEntry (fixImgUrl q.1, q.2)) := by
      rw [List.map_map]
      apply List.map_congr_left
      intro q hq
      show fixSrcsetEntry (' ' :: renderEntry q) = renderEntry (fixImgUrl q.1, q.2)
      rw [fixSrcsetEntry_space, fixSrcsetEntry_render (h q (by simp [hq]))]
    rw [hmaps]
    rfl

/-- Claim C6: the srcset pass splits on commas, rewrites each trimmed
entry's URL by the protocol-relative and root-relative rules (absolute URLs
untouched), keeps each present descriptor and keeps none where absent, and
rejoins with `", "`; on the concrete input of the claim it produces exactly
the expected value. -/
theorem srcset_rewrite_contract :
    (∀ (es : List (Str × Option Str)), es ≠ [] → (∀ p ∈ es, entryOk p = true) →
        fixSrcset (List.intercalate ", ".data (es.map renderEntry))
          = List.intercalate ", ".data
              (es.map (fun p => renderEntry (fixImgUrl p.1, p.2))))
  ∧ fixSrcset "/a.png 1x, //b.png 2x, https://c.png 3x".data
      = "https://en.wikipedia.org/a.png 1x, https://b.png 2x, https://c.png 3x".data :=
  ⟨fixSrcset_entries, by decide⟩

/-- Witness for C6 at the concrete entry list of the claim. -/
theorem srcset_rewrite_contract_witness :
    fixSrcset (List.intercalate ", ".data
        ([("/a.png".data, some "1x".data), ("//b.png".data, some "2x".data),
          ("https://c.png".data, some "3x".data)].map renderEntry))
      = List.intercalate ", ".data
          ([("/a.png".data, some "1x".data), ("//b.png".data, some "2x".data),
            ("https://c.png".data, some "3x".data)].map
            (fun p => renderEntry (fixImgUrl p.1, p.2))) :=
  srcset_rewrite_contract.1 _ (by decide) (by decide)

/-- Claim C10: when a well-formed URL and a well-formed descriptor are
separated by two or more spaces, the single-space split leaves the empty
string in the descriptor position, which is falsy, so the descriptor is
dropped and only the rewritten URL is emitted. -/
theorem srcset_multispace_descriptor_dropped :
    ∀ (url desc : Str) (k : Nat), entryOk (url, some desc) = true →
      fixSrcsetEntry (url ++ List.replicate (k + 2) ' ' ++ desc) = fixImgUrl url := by
  intro url desc k h
  obtain ⟨hne, hurl⟩ := entryOk_url h
  obtain ⟨hdne, hdesc⟩ := entryOk_desc h rfl
  have hsp_url : ' ' ∉ url := by
    intro hmem
    have := (hurl ' ' hmem).1
    simp at this
  have hrep : List.replicate (k + 2) ' ' = ' ' :: ' ' :: List.replicate k ' ' := rfl
  have htrim : jsTrim (url ++ List.replicate (k + 2) ' ' ++ desc)
      = url ++ List.replicate (k + 2) ' ' ++ desc := by
    apply jsTrim_eq_self
    · intro c hc
      cases hu : url with
      | nil => exact absurd hu hne
      | cons u us =>
        rw [hu] at hc
        simp at hc
        subst hc
        exact (hurl u (by rw [hu]; simp)).1
    · intro c hc
      rw [List.getLast?_append_of_ne_nil _ (by
        cases hd : desc with
        | nil => exact absurd hd hdne
        | cons e es => simp)] at hc
      exact (hdesc c (mem_of_getLast? hc)).1
  have hsplit2 : splitOnChar ' ' (' ' :: (List.replicate k ' ' ++ desc))
      = [] :: splitOnChar ' ' (List.replicate k ' ' ++ desc) := by
    simp [splitOnChar]
  have hsplit : splitOnChar ' ' (url ++ List.replicate (k + 2) ' ' ++ desc)
      = url :: [] :: splitOnChar ' ' (List.replicate k ' ' ++ desc) := by
    have hassoc : url ++ List.replicate (k + 2) ' ' ++ desc
        = url ++ ' ' :: (' ' :: (List.replicate k ' ' ++ desc)) := by
      rw [List.append_assoc, hrep]
      rfl
    rw [hassoc, splitOnChar_append_sep url _ hsp_url, hsplit2]
  unfold fixSrcsetEntry
  rw [htrim, hsplit]
  simp

/-- Witness for C10 at a concrete double-spaced entry. -/
theorem srcset_multispace_descriptor_dropped_witness :
    fixSrcsetEntry ("/a.png".data ++ List.replicate 2 ' ' ++ "2x".data)
      = fixImgUrl "/a.png".data :=
  srcset_multispace_descriptor_dropped "/a.png".data "2x".data 0 (by decide)

/-! ## Attribute lemmas and the URL-normalization theorems -/

theorem bool_ne_true {b : Bool} (h : b = false) : ¬(b = true) := by
  rw [h]
  exact Bool.false_ne_true

theorem getAttr_cons_false {p : Str × Str} {ps : Attrs} {n : Str}
    (hp : (p.1 == n) = false) : getAttr (p :: ps) n = getAttr ps n := by
  simp [getAttr, List.find?_cons, hp]

theorem getAttr_map_set_self : ∀ (ps : Attrs) (n v : Str),
    ps.any (fun q => q.1 == n) = true →
    getAttr (ps.map (fun q => if q.1 == n then (n, v) else q)) n = some v := by
  intro ps n v
  induction ps with
  | nil => intro h; simp at h
  | cons p ps ih =>
    intro h
    rcases Bool.eq_false_or_eq_true (p.1 == n) with hp | hp
    · have hpn : p.1 = n := by simpa using hp
      simp [getAttr, List.find?_cons, hpn]
    · have h2 : ps.any (fun q => q.1 == n) = true := by
        simpa [List.any_cons, hp] using h
      rw [List.map_cons, if_neg (bool_ne_true hp), getAttr_cons_false hp]
      exact ih h2

theorem getAttr_append_single_self : ∀ (ps : Attrs) (n v : Str),
    ps.any (fun q => q.1 == n) = false →
    getAttr (ps ++ [(n, v)]) n = some v := by
  intro ps n v
  induction ps with
  | nil => intro _; simp [getAttr]
  | cons p ps ih =>
    intro h
    rw [List.any_cons, Bool.or_eq_false_iff] at h
    rw [List.cons_append, getAttr_cons_false h.1]
    exact ih h.2

theorem getAttr_setAttr_self (attrs : Attrs) (n v : Str) :
    getAttr (setAttr attrs n v) n = some v := by
  unfold setAttr
  rcases Bool.eq_false_or_eq_true (attrs.any (fun q => q.1 == n)) with h | h
  · rw [if_pos h]
    exact getAttr_map_set_self attrs n v h
  · rw [if_neg (bool_ne_true h)]
    exact getAttr_append_single_self attrs n v h

theorem getAttr_map_set_ne : ∀ (ps : Attrs) (n v m : Str), (n == m) = false →
    getAttr (ps.map (fun q => if q.1 == n then (n, v) else q)) m = getAttr ps m := by
  intro ps n v m hnm
  induction ps with
  | nil => rfl
  | cons p ps ih =>
    rcases Bool.eq_false_or_eq_true (p.1 == n) with hp | hp
    · have hpn : p.1 = n := by simpa using hp
      have hpm : (p.1 == m) = false := by rw [hpn]; exact hnm
      rw [List.map_cons, if_pos hp, getAttr_cons_false hnm,
        getAttr_cons_false hpm]
      exact ih
    · rcases Bool.eq_false_or_eq_true (p.1 == m) with hm | hm
      · rw [List.map_cons, if_neg (bool_ne_true hp)]
        simp [getAttr, List.find?_cons, hm]
      · rw [List.map_cons, if_neg (bool_ne_true hp),
          getAttr_cons_false hm, getAttr_cons_false hm]
        exact ih

theorem getAttr_append_single_ne (ps : Attrs) (n v m : Str) (hnm : (n == m) = false) :
    getAttr (ps ++ [(n, v)]) m = getAttr ps m := by
  induction ps with
  | nil => simp [getAttr, List.find?_cons, hnm]
  | cons p ps ih =>
    rcases Bool.eq_false_or_eq_true (p.1 == m) with hm | hm
    · simp [getAttr, List.find?_cons, hm]
    · rw [List.cons_append, getAttr_cons_false hm, getAttr_cons_false hm]
      exact ih

theorem getAttr_setAttr_ne (attrs : Attrs) (n v m : Str) (hnm : (n == m) = false) :
    getAttr (setAttr attrs n v) m = getAttr attrs m := by
  unfold setAttr
  rcases Bool.eq_false_or_eq_true (attrs.any (fun q => q.1 == n)) with h | h
  · rw [if_pos h]
    exact getAttr_map_set_ne attrs n v m hnm
  · rw [if_neg (bool_ne_true h)]
    exact getAttr_append_single_ne attrs n v m hnm

/-- The image pass on an attribute list maps the `src` attribute through the
protocol-relative / root-relative rules. -/
theorem getAttr_fixImgAttrs_src (attrs : Attrs) :
    getAttr (fixImgAttrs attrs) "src".data = (getAttr attrs "src".data).map fixImgUrl := by
  unfold fixImgAttrs
  rw [getAttr_setAttr_ne _ _ _ _ (by decide)]
  split
  next ss h2 =>
    rw [getAttr_setAttr_ne _ _ _ _ (by decide)]
    split
    next srcAttr h =>
      split
      next hp1 =>
        rw [getAttr_setAttr_self]
        have hfix : fixImgUrl srcAttr = "https:".data ++ srcAttr := by
          unfold fixImgUrl
          rw [if_pos hp1]
        rw [h]
        simp [hfix]
      next hp1 =>
        split
        next hp2 =>
          rw [getAttr_setAttr_self]
          have hfix : fixImgUrl srcAttr = wikiOrigin ++ srcAttr := by
            unfold fixImgUrl
            rw [if_neg hp1, if_pos hp2]
          rw [h]
          simp [hfix]
        next hp2 =>
          have hfix : fixImgUrl srcAttr = srcAttr := by
            unfold fixImgUrl
            rw [if_neg hp1, if_neg hp2]
          rw [h]
          simp [hfix]
    next h =>
      rw [h]
      rfl
  next h2 =>
    split
    next srcAttr h =>
      split
      next hp1 =>
        rw [getAttr_setAttr_self]
        have hfix : fixImgUrl srcAttr = "https:".data ++ srcAttr := by
          unfold fixImgUrl
          rw [if_pos hp1]
        rw [h]
        simp [hfix]
      next hp1 =>
        split
        next hp2 =>
          rw [getAttr_setAttr_self]
          have hfix : fixImgUrl srcAttr = wikiOrigin ++ srcAttr := by
            unfold fixImgUrl
            rw [if_neg hp1, if_pos hp2]
          rw [h]
          simp [hfix]
        next hp2 =>
          have hfix : fixImgUrl srcAttr = srcAttr := by
            unfold fixImgUrl
            rw [if_neg hp1, if_neg hp2]
          rw [h]
          simp [hfix]
    next h =>
      rw [h]
      rfl

/-- The anchor pass on an attribute list maps the `href` attribute through
the single `startsWith("/")` rule. -/
theorem getAttr_fixAnchorAttrs_href (attrs : Attrs) :
    getAttr (fixAnchorAttrs attrs) "href".data
      = (getAttr attrs "href".data).map fixHrefUrl := by
  unfold fixAnchorAttrs
  cases h : getAttr attrs "href".data with
  | none =>
    dsimp only
    rw [h]
    rfl
  | some href =>
    dsimp only
    rcases Bool.eq_false_or_eq_true (!href.isEmpty && ("/".data).isPrefixOf href)
      with hc | hc
    · rw [if_pos hc, getAttr_setAttr_self]
      have hpre : ("/".data).isPrefixOf href = true := by
        rw [Bool.and_eq_true] at hc
        exact hc.2
      have hfix : fixHrefUrl href = wikiOrigin ++ href := by
        unfold fixHrefUrl
        rw [if_pos hpre]
      simp [hfix]
    · rw [if_neg (bool_ne_true hc), h]
      have hpre : ("/".data).isPrefixOf href = false := by
        rcases Bool.and_eq_false_iff.mp hc with h1 | h1
        · have he : href = [] := by
            cases href with
            | nil => rfl
            | cons c cs => simp at h1
          rw [he]
          rfl
        · exact h1
      have hfix : fixHrefUrl href = href := by
        unfold fixHrefUrl
        rw [if_neg (bool_ne_true hpre)]
      simp [hfix]

mutual
/-- The `src` attributes of the images of a subtree, in document order. -/
def imgSrcs : Node → List Str
  | .text _ => []
  | .elem t a cs =>
    (if t == "img".data then (getAttr a "src".data).toList else []) ++ imgSrcsL cs
/-- `imgSrcs` over a child list. -/
def imgSrcsL : NodeList → List Str
  | .nil => []
  | .cons c cs => imgSrcs c ++ imgSrcsL cs
end

mutual
/-- The `href` attributes of the anchors of a subtree, in document order. -/
def hrefList : Node → List Str
  | .text _ => []
  | .elem t a cs =>
    (if t == "a".data then (getAttr a "href".data).toList else []) ++ hrefListL cs
/-- `hrefList` over a child list. -/
def hrefListL : NodeList → List Str
  | .nil => []
  | .cons c cs => hrefList c ++ hrefListL cs
end

mutual
theorem imgSrcs_fixImages (n : Node) :
    imgSrcs (fixImages n) = (imgSrcs n).map fixImgUrl := by
  cases n with
  | text s => rfl
  | elem t a cs =>
    rcases Bool.eq_false_or_eq_true (t == "img".data) with ht | ht
    · simp only [fixImages, imgSrcs, if_pos ht, imgSrcsL_fixImagesL cs,
        getAttr_fixImgAttrs_src a, List.map_append]
      cases getAttr a "src".data with
      | none => rfl
      | some u => rfl
    · simp only [fixImages, imgSrcs, if_neg (bool_ne_true ht), List.nil_append,
        List.map_append, imgSrcsL_fixImagesL cs]
theorem imgSrcsL_fixImagesL (l : NodeList) :
    imgSrcsL (fixImagesL l) = (imgSrcsL l).map fixImgUrl := by
  cases l with
  | nil => rfl
  | cons c cs =>
    show imgSrcs (fixImages c) ++ imgSrcsL (fixImagesL cs) = _
    rw [imgSrcs_fixImages c, imgSrcsL_fixImagesL cs]
    exact (List.map_append fixImgUrl _ _).symm
end

theorem beq_str_eq {t u : Str} (h : (t == u) = true) : t = u := by simpa using h

mutual
theorem imgSrcs_fixAnchors (n : Node) : imgSrcs (fixAnchors n) = imgSrcs n := by
  cases n with
  | text s => rfl
  | elem t a cs =>
    rcases Bool.eq_false_or_eq_true (t == "a".data) with ht | ht
    · have himg : (t == "img".data) = false := by
        rw [beq_str_eq ht]
        decide
      simp only [fixAnchors, imgSrcs, if_pos ht, if_neg (bool_ne_true himg),
        List.nil_append, imgSrcsL_fixAnchorsL cs]
    · simp only [fixAnchors, imgSrcs, if_neg (bool_ne_true ht),
        imgSrcsL_fixAnchorsL cs]
theorem imgSrcsL_fixAnchorsL (l : NodeList) : imgSrcsL (fixAnchorsL l) = imgSrcsL l := by
  cases l with
  | nil => rfl
  | cons c cs =>
    show imgSrcs (fixAnchors c) ++ imgSrcsL (fixAnchorsL cs) = _
    rw [imgSrcs_fixAnchors c, imgSrcsL_fixAnchorsL cs]
    rfl
end

mutual
theorem hrefList_fixImages (n : Node) : hrefList (fixImages n) = hrefList n := by
  cases n with
  | text s => rfl
  | elem t a cs =>
    rcases Bool.eq_false_or_eq_true (t == "img".data) with ht | ht
    · have ha : (t == "a".data) = false := by
        rw [beq_str_eq ht]
        decide
      simp only [fixImages, hrefList, if_pos ht, if_neg (bool_ne_true ha),
        List.nil_append, hrefListL_fixImagesL cs]
    · simp only [fixImages, hrefList, if_neg (bool_ne_true ht),
        hrefListL_fixImagesL cs]
theorem hrefListL_fixImagesL (l : NodeList) : hrefListL (fixImagesL l) = hrefListL l := by
  cases l with
  | nil => rfl
  | cons c cs =>
    show hrefList (fixImages c) ++ hrefListL (fixImagesL cs) = _
    rw [hrefList_fixImages c, hrefListL_fixImagesL cs]
    rfl
end

mutual
theorem hrefList_fixAnchors (n : Node) :
    hrefList (fixAnchors n) = (hrefList n).map fixHrefUrl := by
  cases n with
  | text s => rfl
  | elem t a cs =>
    rcases Bool.eq_false_or_eq_true (t == "a".data) with ht | ht
    · simp only [fixAnchors, hrefList, if_pos ht, hrefListL_fixAnchorsL cs,
        getAttr_fixAnchorAttrs_href a, List.map_append]
      cases getAttr a "href".data with
      | none => rfl
      | some u => rfl
    · simp only [fixAnchors, hrefList, if_neg (bool_ne_true ht), List.nil_append,
        List.map_append, hrefListL_fixAnchorsL cs]
theorem hrefListL_fixAnchorsL (l : NodeList) :
    hrefListL (fixAnchorsL l) = (hrefListL l).map fixHrefUrl := by
  cases l with
  | nil => rfl
  | cons c cs =>
    show hrefList (fixAnchors c) ++ hrefListL (fixAnchorsL cs) = _
    rw [hrefList_fixAnchors c, hrefListL_fixAnchorsL cs]
    exact (List.map_append fixHrefUrl _ _).symm
end

/-- A root-relative prefix is implied by a protocol-relative prefix, so its
absence transfers. -/
theorem dslash_prefix_false {u : Str} (h : ("/".data).isPrefixOf u = false) :
    ("//".data).isPrefixOf u = false := by
  cases u with
  | nil => rfl
  | cons c cs =>
    simp only [List.isPrefixOf, Bool.and_eq_false_iff] at h ⊢
    rcases h with h | h
    · exact Or.inl h
    · simp [List.isPrefixOf] at h

/-- Claim C5 (corrected): the two passes rewrite every image `src` by the
protocol-relative and root-relative rules, and every hyperlink `href` by the
single `startsWith("/")` rule — so a protocol-relative href receives the
fixed origin as a prefix (keeping its own host after a double slash) instead
of becoming an https reference on its original host. -/
theorem url_normalization_amended :
    (∀ doc : Node,
        imgSrcs (fixAnchors (fixImages doc)) = (imgSrcs doc).map fixImgUrl
      ∧ hrefList (fixAnchors (fixImages doc)) = (hrefList doc).map fixHrefUrl)
  ∧ (∀ u : Str, ("//".data).isPrefixOf u = true → fixImgUrl u = "https:".data ++ u)
  ∧ (∀ u : Str, ("//".data).isPrefixOf u = false → ("/".data).isPrefixOf u = true →
      fixImgUrl u = wikiOrigin ++ u)
  ∧ (∀ u : Str, ("/".data).isPrefixOf u = false → fixImgUrl u = u)
  ∧ (∀ u : Str, ("/".data).isPrefixOf u = true → fixHrefUrl u = wikiOrigin ++ u)
  ∧ (∀ u : Str, ("/".data).isPrefixOf u = false → fixHrefUrl u = u) := by
  refine ⟨fun doc => ⟨?_, ?_⟩, fun u h => ?_, fun u h1 h2 => ?_, fun u h => ?_,
    fun u h => ?_, fun u h => ?_⟩
  · rw [imgSrcs_fixAnchors, imgSrcs_fixImages]
  · rw [hrefList_fixAnchors, hrefList_fixImages]
  · unfold fixImgUrl
    rw [if_pos h]
  · unfold fixImgUrl
    rw [if_neg (bool_ne_true h1), if_pos h2]
  · unfold fixImgUrl
    rw [if_neg (bool_ne_true (dslash_prefix_false h)), if_neg (bool_ne_true h)]
  · unfold fixHrefUrl
    rw [if_pos h]
  · unfold fixHrefUrl
    rw [if_neg (bool_ne_true h)]

/-- An anchor carrying the protocol-relative reference of the claim. -/
def aProtoRel : Node :=
  .elem "a".data [("href".data, "//upload.example/img.png".data)] .nil

/-- Claim C5, counterexample: on a hyperlink the code rewrites the
protocol-relative href `//upload.example/img.png` to
`https://en.wikipedia.org//upload.example/img.png`, not to
`https://upload.example/img.png` as the claim requires. -/
theorem href_protocol_relative_counterexample :
    hrefList (fixAnchors (fixImages aProtoRel))
      = ["https://en.wikipedia.org//upload.example/img.png".data]
  ∧ "https://en.wikipedia.org//upload.example/img.png".data
      ≠ "https://upload.example/img.png".data := by
  constructor
  · decide
  · decide

/-- Witness for C5 at the concrete references of the claim. -/
theorem url_normalization_amended_witness :
    fixImgUrl "//upload.example/img.png".data
      = "https:".data ++ "//upload.example/img.png".data
  ∧ fixImgUrl "/wiki/Foo".data = wikiOrigin ++ "/wiki/Foo".data
  ∧ fixImgUrl "https://c.png".data = "https://c.png".data
  ∧ fixHrefUrl "/wiki/Foo".data = wikiOrigin ++ "/wiki/Foo".data
  ∧ fixHrefUrl "https://c.png".data = "https://c.png".data :=
  ⟨url_normalization_amended.2.1 _ (by decide),
   url_normalization_amended.2.2.1 _ (by decide) (by decide),
   url_normalization_amended.2.2.2.1 _ (by decide),
   url_normalization_amended.2.2.2.2.1 _ (by decide),
   url_normalization_amended.2.2.2.2.2 _ (by decide)⟩

/-! ## Content-locator theorems -/

/-- First-success-wins over an explicit candidate list. -/
def firstSome : List (Option Node) → Option Node
  | [] => none
  | o :: os =>
    match o with
    | some m => some m
    | none => firstSome os

/-- The locator's fixed candidate chain, in priority order; the document
body is the always-matching last resort. -/
def candidateChain (doc : Node) : List (Option Node) :=
  [(qsel (.byId "mw-content-text".data) doc).bind
      (eqsel (.byClass "mw-parser-output".data)),
   (qsel (.byId "bodyContent".data) doc).bind
      (eqsel (.byClass "mw-parser-output".data)),
   qsel (.byId "mw-content-text".data) doc,
   qsel (.byId "content".data) doc,
   qsel (.byClass "mw-body-content".data) doc,
   some doc]

theorem firstSome_append_some (l : List (Option Node)) (d : Node) :
    ∃ m, firstSome (l ++ [some d]) = some m := by
  induction l with
  | nil => exact ⟨d, rfl⟩
  | cons o os ih =>
    cases o with
    | some m => exact ⟨m, rfl⟩
    | none =>
      obtain ⟨m, hm⟩ := ih
      exact ⟨m, by simpa [firstSome] using hm⟩

/-- The nested conditional fallback of the source equals first-success-wins
over the explicit candidate chain. -/
theorem locate_eq_firstSome (doc : Node) :
    locateMainContent doc = firstSome (candidateChain doc) := by
  cases h1 : qsel (Sel.byId "mw-content-text".data) doc with
  | some ct =>
    cases h1b : eqsel (Sel.byClass "mw-parser-output".data) ct with
    | some m => simp [locateMainContent, candidateChain, firstSome, h1, h1b]
    | none =>
      cases h2 : qsel (Sel.byId "bodyContent".data) doc with
      | some bc =>
        cases h2b : eqsel (Sel.byClass "mw-parser-output".data) bc with
        | some m =>
          simp [locateMainContent, candidateChain, firstSome, h1, h1b, h2, h2b]
        | none =>
          simp [locateMainContent, candidateChain, firstSome, h1, h1b, h2, h2b]
      | none =>
        simp [locateMainContent, candidateChain, firstSome, h1, h1b, h2]
  | none =>
    cases h2 : qsel (Sel.byId "bodyContent".data) doc with
    | some bc =>
      cases h2b : eqsel (Sel.byClass "mw-parser-output".data) bc with
      | some m =>
        simp [locateMainContent, candidateChain, firstSome, h1, h2, h2b]
      | none =>
        cases h3 : qsel (Sel.byId "content".data) doc with
        | some m =>
          simp [locateMainContent, candidateChain, firstSome, h1, h2, h2b, h3]
        | none =>
          cases h4 : qsel (Sel.byClass "mw-body-content".data) doc with
          | some m =>
            simp [locateMainContent, candidateChain, firstSome, h1, h2, h2b, h3, h4]
          | none =>
            simp [locateMainContent, candidateChain, firstSome, h1, h2, h2b, h3, h4]
    | none =>
      cases h3 : qsel (Sel.byId "content".data) doc with
      | some m =>
        simp [locateMainContent, candidateChain, firstSome, h1, h2, h3]
      | none =>
        cases h4 : qsel (Sel.byClass "mw-body-content".data) doc with
        | some m =>
          simp [locateMainContent, candidateChain, firstSome, h1, h2, h3, h4]
        | none =>
          simp [locateMainContent, candidateChain, firstSome, h1, h2, h3, h4]

/-- Claim C4 (corrected): the locator is first-selector-match-wins — it
selects the first candidate whose selector matches (the body as last
resort), without regard to that candidate's content, and signals
`NoContentFound` exactly when the serialized content of that single
selected candidate is empty after trimming.  It does not fall through to a
later candidate when the selected one is empty. -/
theorem locator_first_selector_match_amended :
    ∀ doc : Node, ∃ m : Node,
      locateMainContent doc = some m
    ∧ firstSome (candidateChain doc) = some m
    ∧ getMainContent doc
        = (if (jsTrim (innerHTML m)).isEmpty then Except.error noContentMsg
           else Except.ok m) := by
  intro doc
  have hchain : candidateChain doc
      = [(qsel (.byId "mw-content-text".data) doc).bind
            (eqsel (.byClass "mw-parser-output".data)),
         (qsel (.byId "bodyContent".data) doc).bind
            (eqsel (.byClass "mw-parser-output".data)),
         qsel (.byId "mw-content-text".data) doc,
         qsel (.byId "content".data) doc,
         qsel (.byClass "mw-body-content".data) doc] ++ [some doc] := rfl
  obtain ⟨m, hm⟩ := firstSome_append_some
    [(qsel (.byId "mw-content-text".data) doc).bind
        (eqsel (.byClass "mw-parser-output".data)),
     (qsel (.byId "bodyContent".data) doc).bind
        (eqsel (.byClass "mw-parser-output".data)),
     qsel (.byId "mw-content-text".data) doc,
     qsel (.byId "content".data) doc,
     qsel (.byClass "mw-body-content".data) doc] doc
  have hfs : firstSome (candidateChain doc) = some m := by rw [hchain]; exact hm
  have hloc : locateMainContent doc = some m := by
    rw [locate_eq_firstSome doc]
    exact hfs
  refine ⟨m, hloc, hfs, ?_⟩
  unfold getMainContent
  rw [hloc]

/-- A document whose first matching candidate (`#mw-content-text
.mw-parser-output`) is empty while a later candidate (`#content`) has
content. -/
def docLocEx : Node :=
  .elem "body".data []
    (.cons (.elem "div".data [("id".data, "mw-content-text".data)]
        (.cons (.elem "div".data [("class".data, "mw-parser-output".data)] .nil) .nil))
      (.cons (.elem "div".data [("id".data, "content".data)]
        (.cons (.text "hello".data) .nil)) .nil))

/-- Claim C4, counterexample: on `docLocEx` the locator signals
`NoContentFound` even though the later candidate `#content` has non-empty
serialized content, contradicting "only if no candidate in the chain yields
non-empty content does it signal the terminal NoContentFound condition". -/
theorem locator_stops_at_first_match_counterexample :
    getMainContent docLocEx = Except.error noContentMsg
  ∧ (qsel (Sel.byId "content".data) docLocEx).map
      (fun m => (jsTrim (innerHTML m)).isEmpty) = some false := by
  constructor
  · rfl
  · rfl

/-! ## Table-of-contents theorems -/

/-- The `id` attribute of a node. -/
def nodeIdAttr : Node → Option Str
  | .text _ => none
  | .elem _ a _ => getAttr a "id".data

mutual
theorem headingsIn_elem (n : Node) :
    ∀ h ∈ headingsIn n, ∃ t a cs, h = Node.elem t a cs := by
  cases n with
  | text s => intro h hh; simp [headingsIn] at hh
  | elem t a cs =>
    intro h hh
    rw [headingsIn] at hh
    rcases List.mem_append.mp hh with h1 | h2
    · rcases Bool.eq_false_or_eq_true (isHeadingTag t) with ht | ht
      · rw [if_pos ht] at h1
        rcases List.mem_cons.mp h1 with h3 | h3
        · exact ⟨t, a, cs, h3⟩
        · simp at h3
      · rw [if_neg (bool_ne_true ht)] at h1
        simp at h1
    · exact headingsInL_elem cs h h2
theorem headingsInL_elem (l : NodeList) :
    ∀ h ∈ headingsInL l, ∃ t a cs, h = Node.elem t a cs := by
  cases l with
  | nil => intro h hh; simp [headingsInL] at hh
  | cons c cs =>
    intro h hh
    rw [headingsInL] at hh
    rcases List.mem_append.mp hh with h1 | h2
    · exact headingsIn_elem c h h1
    · exact headingsInL_elem cs h h2
end

theorem headingsOf_elem (doc : Node) :
    ∀ h ∈ headingsOf doc, ∃ t a cs, h = Node.elem t a cs := by
  unfold headingsOf
  split
  · intro h hh; simp at hh
  · intro h hh; exact headingsInL_elem _ h hh

theorem sectionsOf_map_title (ids : Nat → Str) (doc : Node) :
    (sectionsOf ids doc).map (fun s => s.title)
      = ((headingsOf doc).filter keepHeading).map textContent := by
  unfold sectionsOf
  rw [List.map_map]
  have h1 : ((fun s : Section => s.title) ∘
      (fun p : Nat × Node =>
        Section.mk (ids p.1) (textContent p.2) (withIdAttr p.2 (ids p.1))))
      = (textContent ∘ Prod.snd) := rfl
  rw [h1, ← List.map_map, List.enum_map_snd]

theorem sectionsOf_map_id (ids : Nat → Str) (doc : Node) :
    (sectionsOf ids doc).map (fun s => s.id)
      = (List.range ((headingsOf doc).filter keepHeading).length).map ids := by
  unfold sectionsOf
  rw [List.map_map]
  have h1 : ((fun s : Section => s.id) ∘
      (fun p : Nat × Node =>
        Section.mk (ids p.1) (textContent p.2) (withIdAttr p.2 (ids p.1))))
      = (ids ∘ Prod.fst) := rfl
  rw [h1, ← List.map_map, List.enum_map_fst]

theorem sectionsOf_mem_idattr (ids : Nat → Str) (doc : Node) :
    ∀ s ∈ sectionsOf ids doc, nodeIdAttr s.element = some s.id := by
  intro s hs
  unfold sectionsOf at hs
  obtain ⟨p, hp, rfl⟩ := List.mem_map.mp hs
  have hsnd : p.2 ∈ (headingsOf doc).filter keepHeading := by
    have h1 : p.2 ∈ ((headingsOf doc).filter keepHeading).enum.map Prod.snd :=
      List.mem_map_of_mem Prod.snd hp
    rwa [List.enum_map_snd] at h1
  have hmem : p.2 ∈ headingsOf doc := List.mem_of_mem_filter hsnd
  obtain ⟨t, a, cs, helem⟩ := headingsOf_elem doc p.2 hmem
  show nodeIdAttr (withIdAttr p.2 (ids p.1)) = some (ids p.1)
  rw [helem]
  show getAttr (setAttr a "id".data (ids p.1)) "id".data = some (ids p.1)
  exact getAttr_setAttr_self a "id".data (ids p.1)

/-- A fresh-id supply used for concrete instances: distinct indices give
distinct ids. -/
def idsSupply : Nat → Str := fun n => List.replicate (n + 1) 'x'

theorem idsSupply_injective : Function.Injective idsSupply := by
  intro a b h
  have h1 := congrArg List.length h
  have h2 : a + 1 = b + 1 := by simpa [idsSupply] using h1
  omega

/-- A content root with a heading the stop list excludes and one it keeps. -/
def docC7 : Node :=
  .elem "body".data []
    (.cons (.elem "h2".data [] (.cons (.text "Contents".data) .nil))
      (.cons (.elem "h2".data [] (.cons (.text "History".data) .nil)) .nil))

/-- Claim C7: the extractor emits exactly the headings whose lowercased text
contains none of the stop-list substrings, in document order and with their
text as title; each surviving heading receives the next fresh id of the
supply and its element is mutated to carry that id; a "Contents" heading is
excluded while a "History" heading is kept. -/
theorem toc_extraction_contract :
    (∀ (ids : Nat → Str) (doc : Node),
        (sectionsOf ids doc).map (fun s => s.title)
          = ((headingsOf doc).filter keepHeading).map textContent
      ∧ (sectionsOf ids doc).map (fun s => s.id)
          = (List.range ((headingsOf doc).filter keepHeading).length).map ids
      ∧ ∀ s ∈ sectionsOf ids doc, nodeIdAttr s.element = some s.id)
  ∧ (∀ h : Node, keepHeading h
        = (!(jsIncludes (jsToLower (textContent h)) "navigation".data)
          && !(jsIncludes (jsToLower (textContent h)) "contents".data)
          && !(jsIncludes (jsToLower (textContent h)) "languages".data)))
  ∧ (sectionsOf idsSupply docC7).map (fun s => s.title) = ["History".data] := by
  refine ⟨fun ids doc => ⟨sectionsOf_map_title ids doc, sectionsOf_map_id ids doc,
    sectionsOf_mem_idattr ids doc⟩, fun h => rfl, ?_⟩
  decide

/-- Witness for C7: the "History" section of `docC7` carries its fresh id on
the mutated element. -/
theorem toc_extraction_contract_witness :
    nodeIdAttr (withIdAttr (Node.elem "h2".data []
        (.cons (.text "History".data) .nil)) (idsSupply 0)) = some (idsSupply 0) :=
  (toc_extraction_contract.1 idsSupply docC7).2.2
    { id := idsSupply 0, title := "History".data,
      element := withIdAttr (Node.elem "h2".data []
        (.cons (.text "History".data) .nil)) (idsSupply 0) }
    (by decide)

/-! ## Orchestration case analysis and the ordering/uniqueness theorems -/

theorem applyUpdates_catch (st : ViewState) (src e : Str) :
    applyUpdates st (catchUpdates src e)
      = { html := fallbackHtml src e, sections := [], readingTime := 0 } := rfl

theorem applyUpdates_catch_rt (st : ViewState) (m : Nat) (src e : Str) :
    applyUpdates st (Update.setReadingTime m :: catchUpdates src e)
      = { html := fallbackHtml src e, sections := [], readingTime := 0 } := rfl

theorem applyUpdates_success (st : ViewState) (m : Nat) (html : Str)
    (secs : List Section) :
    applyUpdates st [Update.setReadingTime m, Update.setHtml html,
      Update.setSections secs]
      = { html := html, sections := secs, readingTime := m } := rfl

/-- Every invocation's commit list has one of three shapes: the fetch-error
catch, a pipeline-error catch after the reading time was already set, or the
full success commit. -/
theorem fetchArticle_cases (ids : Nat → Str) (san : Str → Str) (src : Str)
    (res : Except Str Node) :
    (∃ e, res = Except.error e ∧ fetchArticle ids san src res = catchUpdates src e)
  ∨ (∃ doc0 e, res = Except.ok doc0
      ∧ fetchArticle ids san src res
          = Update.setReadingTime (readingMinutes (textContent (processedDoc doc0)))
            :: catchUpdates src e)
  ∨ (∃ doc0 mainC, res = Except.ok doc0
      ∧ getMainContent (mutateDoc ids (processedDoc doc0)) = Except.ok mainC
      ∧ (jsTrim (san (innerHTML mainC))).isEmpty = false
      ∧ fetchArticle ids san src res
          = [Update.setReadingTime (readingMinutes (textContent (processedDoc doc0))),
             Update.setHtml (san (innerHTML mainC)),
             Update.setSections (sectionsOf ids (processedDoc doc0))]) := by
  cases res with
  | error e => exact Or.inl ⟨e, rfl, rfl⟩
  | ok doc0 =>
    right
    cases hmc : getMainContent (mutateDoc ids (processedDoc doc0)) with
    | error e =>
      left
      refine ⟨doc0, e, rfl, ?_⟩
      unfold fetchArticle
      dsimp only
      rw [hmc]
    | ok mainC =>
      rcases Bool.eq_false_or_eq_true ((jsTrim (san (innerHTML mainC))).isEmpty)
        with hemp | hemp
      · left
        refine ⟨doc0, sanitizedEmptyMsg, rfl, ?_⟩
        unfold fetchArticle
        dsimp only
        rw [hmc]
        dsimp only
        rw [if_pos hemp]
      · right
        refine ⟨doc0, mainC, rfl, hmc, hemp, ?_⟩
        unfold fetchArticle
        dsimp only
        rw [hmc]
        dsimp only
        rw [if_neg (bool_ne_true hemp)]

/-- The source positions (indices into the document-order heading list) of
the headings surviving the stop-list filter. -/
def sectionIndices (doc : Node) : List Nat :=
  ((headingsOf doc).enum.filter (fun p => keepHeading p.2)).map Prod.fst

theorem sectionIndices_pairwise (doc : Node) :
    List.Pairwise (· < ·) (sectionIndices doc) := by
  unfold sectionIndices
  have h1 : List.Sublist ((headingsOf doc).enum.filter (fun p => keepHeading p.2))
      ((headingsOf doc).enum) := List.filter_sublist _
  have h2 : List.Sublist
      (((headingsOf doc).enum.filter (fun p => keepHeading p.2)).map Prod.fst)
      ((headingsOf doc).enum.map Prod.fst) := h1.map Prod.fst
  rw [List.enum_map_fst] at h2
  exact (List.pairwise_lt_range _).sublist h2

theorem filter_eq_enum_filter (doc : Node) :
    (headingsOf doc).filter keepHeading
      = ((headingsOf doc).enum.filter (fun p => keepHeading p.2)).map Prod.snd := by
  have h1 : ((headingsOf doc).enum.map Prod.snd).filter keepHeading
      = ((headingsOf doc).enum.filter (keepHeading ∘ Prod.snd)).map Prod.snd :=
    List.filter_map Prod.snd (headingsOf doc).enum
  rw [List.enum_map_snd] at h1
  exact h1

theorem sectionsOf_title_indices (ids : Nat → Str) (doc : Node) :
    (sectionsOf ids doc).map (fun s => s.title)
      = (sectionIndices doc).map
          (fun i => textContent ((headingsOf doc).getD i (Node.text []))) := by
  rw [sectionsOf_map_title, filter_eq_enum_filter]
  unfold sectionIndices
  rw [List.map_map, List.map_map]
  apply List.map_congr_left
  intro p hp
  have hp2 : p ∈ (headingsOf doc).enum := List.mem_of_mem_filter hp
  have hget : (headingsOf doc)[p.1]? = some p.2 := by
    obtain ⟨i, a⟩ := p
    exact (List.mk_mem_enum_iff_getElem?.mp hp2)
  show textContent p.2 = textContent ((headingsOf doc).getD p.1 (Node.text []))
  rw [List.getD_eq_getElem?_getD, hget]
  rfl

/-- Claim C8: in every produced view state the section ids are pairwise
distinct (given an injective fresh-id supply), the surviving headings keep
their strict document order, and the committed sections list is either the
fallback's empty list or exactly the extractor's output for the processed
document. -/
theorem sections_ordered_and_unique :
    ∀ (ids : Nat → Str) (san : Str → Str) (src : Str) (res : Except Str Node)
      (st0 : ViewState), Function.Injective ids →
      ((finalState ids san src res st0).sections.map (fun s => s.id)).Nodup
    ∧ (∀ doc : Node, List.Pairwise (· < ·) (sectionIndices doc)
        ∧ (sectionsOf ids doc).map (fun s => s.title)
            = (sectionIndices doc).map
                (fun i => textContent ((headingsOf doc).getD i (Node.text []))))
    ∧ ((finalState ids san src res st0).sections = []
        ∨ ∃ doc0, res = Except.ok doc0
            ∧ (finalState ids san src res st0).sections
                = sectionsOf ids (processedDoc doc0)) := by
  intro ids san src res st0 hinj
  have hsec : (finalState ids san src res st0).sections = []
      ∨ ∃ doc0, res = Except.ok doc0
          ∧ (finalState ids san src res st0).sections
              = sectionsOf ids (processedDoc doc0) := by
    rcases fetchArticle_cases ids san src res with ⟨e, _, hfa⟩ | ⟨doc0, e, _, hfa⟩
      | ⟨doc0, mainC, hres, _, _, hfa⟩
    · left
      unfold finalState
      rw [hfa, applyUpdates_catch]
    · left
      unfold finalState
      rw [hfa, applyUpdates_catch_rt]
    · right
      refine ⟨doc0, hres, ?_⟩
      unfold finalState
      rw [hfa, applyUpdates_success]
  refine ⟨?_, fun doc => ⟨sectionIndices_pairwise doc, sectionsOf_title_indices ids doc⟩,
    hsec⟩
  rcases hsec with h | ⟨doc0, _, h⟩
  · rw [h]
    exact List.nodup_nil
  · rw [h, sectionsOf_map_id]
    exact List.Nodup.map hinj (List.nodup_range _)

/-- Witness for C8 with the concrete injective supply, a failing invocation,
and the concrete two-heading document. -/
theorem sections_ordered_and_unique_witness :
    ((finalState idsSupply id "u".data (Except.error "m".data)
        { html := [], sections := [], readingTime := 0 }).sections.map
      (fun s => s.id)).Nodup
  ∧ List.Pairwise (· < ·) (sectionIndices docC7) :=
  ⟨(sections_ordered_and_unique idsSupply id "u".data (Except.error "m".data)
      { html := [], sections := [], readingTime := 0 } idsSupply_injective).1,
   ((sections_ordered_and_unique idsSupply id "u".data (Except.error "m".data)
      { html := [], sections := [], readingTime := 0 } idsSupply_injective).2.1 docC7).1⟩

/-! ## Failure-fallback, escaping, and staleness theorems -/

/-- Claim C1: whichever step fails — the fetch itself, the content locator,
or the emptiness check after sanitization — the committed view state is
exactly the complete fallback model (fallback html, no sections, zero
reading time), independent of whatever state was previously displayed; and
the fallback html embeds the original source URL as the link target. -/
theorem pipeline_failure_yields_complete_fallback :
    ∀ (ids : Nat → Str) (san : Str → Str) (src : Str) (res : Except Str Node)
      (st0 st1 : ViewState),
      finalState ids san src res st0 = finalState ids san src res st1
    ∧ (∀ e, res = Except.error e →
        finalState ids san src res st0
          = { html := fallbackHtml src e, sections := [], readingTime := 0 })
    ∧ (∀ doc0 e, res = Except.ok doc0 →
        getMainContent (mutateDoc ids (processedDoc doc0)) = Except.error e →
        finalState ids san src res st0
          = { html := fallbackHtml src e, sections := [], readingTime := 0 })
    ∧ (∀ doc0 mainC, res = Except.ok doc0 →
        getMainContent (mutateDoc ids (processedDoc doc0)) = Except.ok mainC →
        (jsTrim (san (innerHTML mainC))).isEmpty = true →
        finalState ids san src res st0
          = { html := fallbackHtml src sanitizedEmptyMsg, sections := [],
              readingTime := 0 })
    ∧ (∀ e, ("href=\"".data ++ src) <:+: fallbackHtml src e) := by
  intro ids san src res st0 st1
  refine ⟨?_, ?_, ?_, ?_, ?_⟩
  · rcases fetchArticle_cases ids san src res with ⟨e, _, hfa⟩ | ⟨doc0, e, _, hfa⟩
      | ⟨doc0, mainC, _, _, _, hfa⟩
    · unfold finalState
      rw [hfa, applyUpdates_catch, applyUpdates_catch]
    · unfold finalState
      rw [hfa, applyUpdates_catch_rt, applyUpdates_catch_rt]
    · unfold finalState
      rw [hfa, applyUpdates_success, applyUpdates_success]
  · intro e hres
    subst hres
    unfold finalState
    exact applyUpdates_catch st0 src e
  · intro doc0 e hres hmc
    subst hres
    unfold finalState fetchArticle
    dsimp only
    rw [hmc]
    exact applyUpdates_catch_rt st0 _ src e
  · intro doc0 mainC hres hmc hemp
    subst hres
    unfold finalState fetchArticle
    dsimp only
    rw [hmc]
    dsimp only
    rw [if_pos hemp]
    exact applyUpdates_catch_rt st0 _ src sanitizedEmptyMsg
  · intro e
    refine ⟨fbPart1 ++ e
      ++ ("</p>\n            <p style=\"margin-top: 2rem;\">\n              <a ").data,
      fbPart3, ?_⟩
    have h2 : fbPart2
        = ("</p>\n            <p style=\"margin-top: 2rem;\">\n              <a ").data
          ++ "href=\"".data := by decide
    unfold fallbackHtml
    rw [h2]
    simp [List.append_assoc]

/-- Witness for C1 at a concrete failing fetch, starting from a non-empty
previously displayed state. -/
theorem pipeline_failure_yields_complete_fallback_witness :
    finalState idsSupply id "https://u1".data (Except.error "boom".data)
        { html := "old".data, sections := [], readingTime := 7 }
      = { html := fallbackHtml "https://u1".data "boom".data, sections := [],
          readingTime := 0 }
  ∧ ("href=\"".data ++ "https://u1".data)
      <:+: fallbackHtml "https://u1".data "boom".data :=
  ⟨(pipeline_failure_yields_complete_fallback idsSupply id "https://u1".data
      (Except.error "boom".data)
      { html := "old".data, sections := [], readingTime := 7 }
      { html := [], sections := [], readingTime := 0 }).2.1 "boom".data rfl,
   (pipeline_failure_yields_complete_fallback idsSupply id "https://u1".data
      (Except.error "boom".data)
      { html := "old".data, sections := [], readingTime := 7 }
      { html := [], sections := [], readingTime := 0 }).2.2.2.2 "boom".data⟩

/-! ## The escaping claim -/

/-- HTML escaping of one character, as the specification requires for
interpolated values. -/
def escapeChar (c : Char) : Str :=
  if c = '&' then "&amp;".data
  else if c = '<' then "&lt;".data
  else if c = '>' then "&gt;".data
  else if c = '"' then "&quot;".data
  else [c]

/-- HTML escaping of a string. -/
def htmlEscape (s : Str) : Str := s.foldr (fun c acc => escapeChar c ++ acc) []

/-- Modelled from the claim: the fallback markup as it would be built if the
interpolated error text and source URL were escaped before insertion. -/
def fallbackHtmlEscaped (src errMsg : Str) : Str :=
  fbPart1 ++ htmlEscape errMsg ++ fbPart2 ++ htmlEscape src ++ fbPart3

/-- A source URL carrying active markup. -/
def srcXss : Str := ("\"><script>alert(1)</script>").data

/-- Claim C2 is false on the code: the fallback builder concatenates the raw
source URL (and raw error text) into the markup, so for a URL containing
`<script>` the produced fallback differs from the escaped rendering and
contains the raw `<script>` fragment, which escaping would have removed. -/
theorem fallback_interpolations_unescaped :
    fallbackHtml srcXss "boom".data ≠ fallbackHtmlEscaped srcXss "boom".data
  ∧ jsIncludes (fallbackHtml srcXss "boom".data) "<script>".data = true
  ∧ jsIncludes (fallbackHtmlEscaped srcXss "boom".data) "<script>".data = false := by
  refine ⟨by decide, by decide, by decide⟩

/-! ## The staleness claim -/

/-- Claim C9 is false on the code: the effect has no guard comparing an
invocation's URL with the currently desired one, so when invocation A (for
URL₁) resolves after invocation B (for URL₂), A's model is committed and
displayed.  Here the displayed html is the fallback for URL₁, which differs
from B's model. -/
theorem stale_invocation_committed :
    runResolutions idsSupply id { html := [], sections := [], readingTime := 0 }
        [("https://u2".data, Except.error "network error".data),
         ("https://u1".data, Except.error "network error".data)]
      = { html := fallbackHtml "https://u1".data "network error".data,
          sections := [], readingTime := 0 }
  ∧ fallbackHtml "https://u1".data "network error".data
      ≠ fallbackHtml "https://u2".data "network error".data := by
  constructor
  · rfl
  · decide

end WikiReader